import Mathlib

/-!
Verification of the go-ssh command-chain compiler, directive parser,
interactive-session front end, PTY output filter, and encrypted credential
store.  Each definition is a shallow embedding of the corresponding Go
function (file and line references in the doc comments); cryptographic
primitives are modelled symbolically.
-/

namespace GoSsh

/-- Embeds Go `strings.HasPrefix`-style check on char lists via
`List.isPrefixOf`; helper for `goContains`. -/
def listContains (needle : List Char) : List Char → Bool
| [] => needle.isPrefixOf []
| c :: t => needle.isPrefixOf (c :: t) || listContains needle t

/-- Embeds Go `strings.Contains(s, sub)`. -/
def goContains (s sub : String) : Bool := listContains sub.data s.data

/-- Embeds Go `strings.HasPrefix(s, pat)`. -/
def goHasPrefix (s pat : String) : Bool := pat.data.isPrefixOf s.data

/-- Embeds Go `strings.TrimPrefix(s, pat)`. -/
def goTrimPrefix (s pat : String) : String :=
  if pat.data.isPrefixOf s.data then String.mk (s.data.drop pat.data.length) else s

/-- Embeds Go `strings.Join(l, sep)`. -/
def goJoin (l : List String) (sep : String) : String :=
  match l with
  | [] => ""
  | [x] => x
  | x :: y :: t => x ++ sep ++ goJoin (y :: t) sep

/-- Helper for `goReplaceFirst`: replace the first occurrence of `pat`
(non-empty) by `repl` in a char list. -/
def replaceFirstList (pat repl : List Char) : List Char → List Char
| [] => []
| c :: t =>
  if pat.isPrefixOf (c :: t) then repl ++ (c :: t).drop pat.length
  else c :: replaceFirstList pat repl t

/-- Embeds Go `strings.Replace(s, pat, repl, 1)` (first occurrence only). -/
def goReplaceFirst (s pat repl : String) : String :=
  String.mk (replaceFirstList pat.data repl.data s.data)

/-- Expansion of one character under the quote-escaping step of
`ConnectWithCommands` (ssh.go:172). -/
def escapeQuoteChar (c : Char) : List Char :=
  if c = '\'' then ['\'', '"', '\'', '"', '\''] else [c]

/-- Embeds `strings.ReplaceAll(remoteScript, "'", "'\"'\"'")` from
`ConnectWithCommands` (ssh.go:172); a single-character pattern makes
`ReplaceAll` a per-character expansion. -/
def escapeSingleQuotes (s : String) : String :=
  String.mk (s.data.map escapeQuoteChar).flatten

/-- Embeds the remote-script builder loop of `ConnectWithCommands`
(ssh.go:152-162): join with `"; "`, and prepend `"exec "` to the last
entry iff it contains `"ssh"`. -/
def buildRemoteScript : List String → String
| [] => ""
| [c] => (if goContains c "ssh" then "exec " ++ c else c)
| c :: d :: t => c ++ "; " ++ buildRemoteScript (d :: t)

/-- Embeds the pure command-compilation logic of `ConnectWithCommands`
(ssh.go:109-186): the returned string is the command ultimately handed to
`ConnectWithExec` (`.error` for the empty-list guard). -/
def compileCommands (commands : List String) : Except String String :=
  if commands.length = 0 then .error "no commands specified"
  else if commands.length = 1 then .ok (commands.headD "")
  else
    match commands.findIdx? (fun cmd => goContains cmd "ssh") with
    | none => .ok (goJoin commands " && ")
    | some i =>
      let firstSSH := commands.getD i ""
      if i = commands.length - 1 then .ok firstSSH
      else
        let preCommands := commands.take i
        let remoteCommands := commands.drop (i + 1)
        let remoteScript := buildRemoteScript remoteCommands
        let sshCommand :=
          if goContains firstSSH " -tt" || goContains firstSSH " -t " then firstSSH
          else goReplaceFirst firstSSH "ssh " "ssh -tt "
        let escapedScript := escapeSingleQuotes remoteScript
        let finalCommand := sshCommand ++ " '" ++ escapedScript ++ "'"
        if preCommands.length = 0 then .ok finalCommand
        else .ok (goJoin preCommands " && " ++ " && " ++ finalCommand)




/-- Embeds `CommandType` (ssh.go:270-278). -/
inductive CommandType
| exec
| send
| sendPass
| wait
| interact
deriving DecidableEq

/-- Embeds `ParsedCommand` (ssh.go:281-284). -/
structure ParsedCommand where
  type : CommandType
  value : String
deriving DecidableEq

/-- Embeds the per-entry classification of `ParseCommands` (ssh.go:287-318):
the if-else chain over one command string. -/
def parseCommand (cmd : String) : ParsedCommand :=
  if goHasPrefix cmd "SEND:" then ⟨.send, goTrimPrefix cmd "SEND:"⟩
  else if goHasPrefix cmd "SENDPASS:" then ⟨.sendPass, goTrimPrefix cmd "SENDPASS:"⟩
  else if goHasPrefix cmd "WAIT:" then ⟨.wait, goTrimPrefix cmd "WAIT:"⟩
  else if cmd = "INTERACT" ∨ cmd = "INTERACTIVE" then ⟨.interact, ""⟩
  else ⟨.exec, cmd⟩

/-- Embeds `ParseCommands` (ssh.go:287-318); the Go loop appends the
classification of each entry in order, i.e. a map. -/
def parseCommands (commands : List String) : List ParsedCommand :=
  commands.map parseCommand

/-- Numeric value of a list of decimal digit characters. -/
def digitsToNat (ds : List Char) : Nat :=
  ds.foldl (fun a c => 10 * a + (c.toNat - 48)) 0

/-- Embeds `fmt.Sscanf(value, "%d", &seconds)` (ssh.go:448): skip leading
whitespace, read an optional sign and a non-empty digit run; `none` when no
integer can be scanned (in which case Go leaves `seconds` at `0`). -/
def goSscanfInt (s : String) : Option Int :=
  let l := s.data.dropWhile (fun c => c = ' ' ∨ c = '\t' ∨ c = '\n')
  match l with
  | '-' :: t =>
    if t.takeWhile Char.isDigit = [] then none
    else some (-(digitsToNat (t.takeWhile Char.isDigit) : Int))
  | '+' :: t =>
    if t.takeWhile Char.isDigit = [] then none
    else some ((digitsToNat (t.takeWhile Char.isDigit) : Int))
  | t =>
    if t.takeWhile Char.isDigit = [] then none
    else some ((digitsToNat (t.takeWhile Char.isDigit) : Int))

/-- Embeds the `CommandTypeWait` arm of the automation loop
(ssh.go:445-451): the number of seconds actually slept; `seconds` stays `0`
when `Sscanf` fails, and the sleep is guarded by `seconds > 0`. -/
def effectiveWaitSeconds (v : String) : Nat :=
  match goSscanfInt v with
  | none => 0
  | some z => if 0 < z then z.toNat else 0



/-- Embeds the control flow of `ConnectInteractive` (ssh.go:322-393) up to
the `pty.Start` call: the empty-list guard, `ParseCommands`, the
password-store precondition (`storeLoadOk` abstracts the outcome of the
`StoreExists`/`PromptMasterPassword`/`Load` block, consulted only when a
`SENDPASS` directive is present), and the seed-command search (first `Exec`
directive; the `execCmd == ""` guard).  A `.ok` result is the seed command
with which control reaches PTY allocation; every `.error` result is
returned before a PTY is allocated or raw mode is entered. -/
def connectInteractivePrePty (storeLoadOk : Bool) (commands : List String) :
    Except String String :=
  if commands.length = 0 then .error "no commands specified"
  else
    let parsed := parseCommands commands
    if parsed.length = 0 then .error "no valid commands"
    else
      let needsPasswordStore := parsed.any (fun pc => pc.type = .sendPass)
      if needsPasswordStore ∧ ¬ storeLoadOk then .error "failed to load password store"
      else
        let execCmd := ((parsed.find? (fun pc => pc.type = .exec)).map ParsedCommand.value).getD ""
        if execCmd = "" then .error "no executable command found"
        else .ok execCmd



/-- Embeds the CSI parameter-byte test of `TerminalFilter.Read`
(ssh.go:553-560): digits, `;`, `?`, `=`, `>`, `!`, space. -/
def csiParamByte (b : Nat) : Bool :=
  (48 ≤ b && b ≤ 57) || b == 59 || b == 63 || b == 61 || b == 62 || b == 33 || b == 32

/-- Decimal digit byte test (ssh.go:596). -/
def digitByte (b : Nat) : Bool := 48 ≤ b && b ≤ 57

/-- Embeds the scanning loop of `TerminalFilter.Read` (ssh.go:543-609) over
the whole buffered byte list; structural recursion on a fuel bounded below
by the list length (every loop iteration advances `i`, so the list length
is a sufficient bound).  First component: the `filtered` output; second
component: the value the loop leaves in `tf.buffer` (the unterminated-CSI
suffix retained at ssh.go:587, `[]` otherwise). -/
def tfProcessAux : Nat → List Nat → List Nat × List Nat
| _, [] => ([], [])
| 0, l => ([], l)
| fuel + 1, 27 :: 91 :: rest =>
    let params := rest.takeWhile csiParamByte
    match rest.dropWhile csiParamByte with
    | [] => ([], 27 :: 91 :: rest)
    | t :: rest2 =>
      if t = 82 ∨ t = 99 ∨ t = 110 then tfProcessAux fuel rest2
      else if 64 ≤ t ∧ t ≤ 126 then
        let out := tfProcessAux fuel rest2
        (27 :: 91 :: (params ++ t :: out.fst), out.snd)
      else
        let out := tfProcessAux fuel (91 :: rest)
        (27 :: out.fst, out.snd)
| fuel + 1, 59 :: rest =>
    let ds := rest.takeWhile digitByte
    match rest.dropWhile digitByte with
    | 82 :: rest2 =>
      if ds.length ≠ 0 then tfProcessAux fuel rest2
      else
        let out := tfProcessAux fuel rest
        (59 :: out.fst, out.snd)
    | 99 :: rest2 =>
      if ds.length ≠ 0 then tfProcessAux fuel rest2
      else
        let out := tfProcessAux fuel rest
        (59 :: out.fst, out.snd)
    | _ =>
      let out := tfProcessAux fuel rest
      (59 :: out.fst, out.snd)
| fuel + 1, b :: rest =>
    let out := tfProcessAux fuel rest
    (b :: out.fst, out.snd)

/-- The scanning loop applied with sufficient fuel. -/
def tfProcess (l : List Nat) : List Nat × List Nat := tfProcessAux l.length l

/-- Embeds `TerminalFilter.Read` (ssh.go:531-617) as a function of the
carry-over state (`tf.buffer` on entry) and the chunk obtained from the
underlying reader: `tf.buffer = append(tf.buffer, p[:n]...)` (ssh.go:539),
the scanning loop (`tfProcess`), and the unconditional `tf.buffer = nil`
at ssh.go:612, which discards the suffix the loop retained at ssh.go:587 —
hence the second component (the state passed to the next call) is always
`[]`. -/
def tfRead (carry chunk : List Nat) : List Nat × List Nat :=
  let buffer := carry ++ chunk
  ((tfProcess buffer).fst, [])


/-- Symbolic model of `deriveMasterKey` (part_001:63-65): PBKDF2 is an
idealized injective function of the passphrase and the salt, so a derived
key is represented by that pair. -/
structure DerivedKey where
  pass : String
  salt : List Nat
deriving DecidableEq

/-- Embeds `PasswordEntry` (part_001:28-32) with a plaintext `password`
field (the in-memory form after `Load` or `Add`). -/
structure PasswordEntry where
  id : String
  description : String
  password : String
deriving DecidableEq

/-- Symbolic model of one serialized entry inside the store file: the
`Password` field holds `base64(AES-GCM-Seal(key, nonce, secret))` produced
at part_001:226-235; AES-GCM is idealized as a constructor, so decryption
under `key2` succeeds iff `key2 = key` (authenticated encryption). -/
structure EncEntry where
  id : String
  description : String
  key : DerivedKey
  nonce : Nat
  secret : String
deriving DecidableEq

/-- Symbolic model of the bytes of the credential store file.
`StoreFile.store salt key nonce payload` is `salt ‖ AES-GCM-Seal(key,
nonce, JSON(payload))` as written by `Save` (part_001:251), with `salt` the
32 random bytes of part_001:128-130 / 212-216; `StoreFile.raw bs` covers
arbitrary other byte contents (e.g. truncated files). -/
inductive StoreFile
| raw (bs : List Nat)
| store (salt : List Nat) (key : DerivedKey) (nonce : Nat) (payload : List EncEntry)
deriving DecidableEq

/-- Embeds the Go map assignment `ps.entries[entry.ID] = entry`: replace
the binding if `id` is present, append otherwise.  The in-memory
`map[string]*PasswordEntry` is modelled as a list with at most one entry
per id. -/
def entriesInsert (es : List PasswordEntry) (e : PasswordEntry) : List PasswordEntry :=
  if es.any (fun x => x.id = e.id) then es.map (fun x => if x.id = e.id then e else x)
  else es ++ [e]

/-- Embeds the entry-decryption loop of `Load` (part_001:181-196): builds
the entries map from the serialized array, decrypting each secret with the
derived key; a key mismatch is the AES-GCM authentication failure at
part_001:189-191, which aborts with the partially built map in place. -/
def decryptEntries (key : DerivedKey) : List EncEntry → List PasswordEntry →
    List PasswordEntry × Bool
| [], acc => (acc, true)
| ee :: rest, acc =>
  if ee.key = key then decryptEntries key rest (entriesInsert acc ⟨ee.id, ee.description, ee.secret⟩)
  else (acc, false)

/-- Error outcomes of the store operations, named after the messages in
part_001 (`invalid password store format`, `failed to decrypt (wrong
password?)`, `failed to decrypt password for …`, `failed to read password
store`, `incorrect old password`, `… not found`, `… already exists`). -/
inductive StoreError
| formatError
| decryptError
| entryDecryptError
| readError
| incorrectOldPassword
| notFound (id : String)
| duplicate (id : String)
deriving DecidableEq

/-- Embeds `Load` (part_001:145-199) as a function of the file contents
(`none` = file absent), the passphrase, and the current in-memory entries
(returned unchanged on the error paths, which in Go return before — or
while — rebuilding `ps.entries`). -/
def storeLoad (file : Option StoreFile) (pass : String) (cur : List PasswordEntry) :
    List PasswordEntry × Option StoreError :=
  match file with
  | none => ([], none)
  | some (.raw bs) =>
    if bs.length < 32 then (cur, some .formatError)
    else (cur, some .decryptError)
  | some (.store salt key _ payload) =>
    if (⟨pass, salt⟩ : DerivedKey) = key then
      match decryptEntries ⟨pass, salt⟩ payload [] with
      | (es, true) => (es, none)
      | (es, false) => (es, some .entryDecryptError)
    else (cur, some .decryptError)

/-- Embeds the per-entry encryption loop of `Save` (part_001:223-236):
each secret is sealed under the derived key with a fresh nonce (modelled by
consecutive values from `n0`). -/
def encryptEntries (key : DerivedKey) (n0 : Nat) : List PasswordEntry → List EncEntry
| [] => []
| e :: rest => ⟨e.id, e.description, key, n0, e.password⟩ :: encryptEntries key (n0 + 1) rest

/-- Embeds the salt-reuse read of `Save` (part_001:204-210): the first 32
bytes of the existing file when it is at least 32 bytes long. -/
def reusedSalt : Option StoreFile → Option (List Nat)
| some (.raw bs) => if 32 ≤ bs.length then some (bs.take 32) else none
| some (.store salt _ _ _) => some salt
| none => none

/-- Embeds `Save` (part_001:202-265).  `order` is the list produced by
iterating the `ps.entries` map (Go map iteration order is arbitrary, so
theorems quantify over permutations of the entries); `saltArg` is the
explicit salt parameter (`nil` = `none`); `file` is the existing file used
for salt reuse; `freshSalt` models the `rand.Read` salt generated when no
salt is available; `n0` seeds the fresh AES-GCM nonces.  The result is the
`salt ‖ ciphertext` blob written to disk. -/
def storeSave (order : List PasswordEntry) (pass : String) (saltArg : Option (List Nat))
    (file : Option StoreFile) (freshSalt : List Nat) (n0 : Nat) : StoreFile :=
  let salt := match saltArg with
    | some s => s
    | none => (reusedSalt file).getD freshSalt
  let key : DerivedKey := ⟨pass, salt⟩
  .store salt key (n0 + order.length) (encryptEntries key n0 order)

/-- Embeds `Initialize` (part_001:126-142) as a function of the current
file state: generate a fresh 32-byte salt (`freshSalt`), reset the entries
to the empty map, and `Save` with that salt.  The function performs no
`StoreExists` check and cannot fail (apart from `rand`/filesystem errors
outside the model); the result is the new in-memory entries and the file
written, regardless of `file`. -/
def storeInit (file : Option StoreFile) (pass : String) (freshSalt : List Nat) (n0 : Nat) :
    List PasswordEntry × StoreFile :=
  ([], storeSave [] pass (some freshSalt) file freshSalt n0)

/-- Embeds `Add` (part_001:268-280). -/
def storeAdd (es : List PasswordEntry) (id description password : String) :
    Except StoreError (List PasswordEntry) :=
  if es.any (fun x => x.id = id) then .error (.duplicate id)
  else .ok (entriesInsert es ⟨id, description, password⟩)

/-- Embeds `Get` (part_001:283-290). -/
def storeGet (es : List PasswordEntry) (id : String) : Except StoreError String :=
  match es.find? (fun x => x.id = id) with
  | some e => .ok e.password
  | none => .error (.notFound id)

/-- Embeds `ChangeMasterPassword` (part_001:331-387): re-read the file,
re-derive the key under `oldPass` and decrypt (failure is the distinct
`incorrect old password` error), rebuild the entries map, generate a
brand-new salt (`newSalt`), and `Save` under `newPass` with that salt.
Result: (in-memory entries, file written if any, error if any). -/
def changeMasterPassword (file : Option StoreFile) (oldPass newPass : String)
    (cur : List PasswordEntry) (saveOrder : List PasswordEntry) (newSalt : List Nat)
    (n0 : Nat) : List PasswordEntry × Option StoreFile × Option StoreError :=
  match file with
  | none => (cur, none, some .readError)
  | some (.raw bs) =>
    if bs.length < 32 then (cur, none, some .formatError)
    else (cur, none, some .incorrectOldPassword)
  | some (.store salt key _ payload) =>
    if (⟨oldPass, salt⟩ : DerivedKey) = key then
      match decryptEntries ⟨oldPass, salt⟩ payload [] with
      | (es, true) =>
        (es, some (storeSave saveOrder newPass (some newSalt) file newSalt n0), none)
      | (es, false) => (es, none, some .entryDecryptError)
    else (cur, none, some .incorrectOldPassword)

/-- Salt segment of a store file (its first 32 bytes). -/
def fileSaltOf : StoreFile → List Nat
| .raw bs => bs.take 32
| .store salt _ _ _ => salt

/-- Quoting state of the POSIX shell word scanner. -/
inductive ShellQuoteState
| outside
| inSingle
| inDouble
deriving DecidableEq

/-- Modelled from the spec: POSIX shell quote removal for the quoting
constructs the compiler emits — outside quotes a `'` opens single-quoting
and a `"` opens double-quoting; inside single quotes every character up to
the next `'` is literal; inside double quotes every character up to the
next `"` is literal (of the characters the escaper can place there, only
`'`, which is not special inside double quotes).  Returns the literal word
when the input ends outside quotes, `none` on an unterminated quote. -/
def shRun : ShellQuoteState → List Char → Option (List Char)
| .outside, [] => some []
| .outside, c :: rest =>
  if c = '\'' then shRun .inSingle rest
  else if c = '"' then shRun .inDouble rest
  else (shRun .outside rest).map (c :: ·)
| .inSingle, [] => none
| .inSingle, c :: rest =>
  if c = '\'' then shRun .outside rest
  else (shRun .inSingle rest).map (c :: ·)
| .inDouble, [] => none
| .inDouble, c :: rest =>
  if c = '"' then shRun .outside rest
  else (shRun .inDouble rest).map (c :: ·)

/-- Shell interpretation (quote removal) of a complete word. -/
def shellUnquote (s : String) : Option String :=
  (shRun .outside s.data).map String.mk

/-- The quoted remote-script fragment built at ssh.go:175: the escaped
script wrapped in single quotes (the `'%s'` part of the format string). -/
def singleQuoteWrap (s : String) : String :=
  "'" ++ escapeSingleQuotes s ++ "'"

theorem isPrefixOf_append_self {α : Type} [BEq α] [LawfulBEq α] (l m : List α) :
    l.isPrefixOf (l ++ m) = true := by
  induction l with
  | nil => simp [List.isPrefixOf]
  | cons a t ih => simp [List.isPrefixOf, ih]

theorem goHasPrefix_append (pre v : String) : goHasPrefix (pre ++ v) pre = true := by
  unfold goHasPrefix
  rw [String.data_append]
  exact isPrefixOf_append_self _ _

theorem goTrimPrefix_append (pre v : String) : goTrimPrefix (pre ++ v) pre = v := by
  unfold goTrimPrefix
  rw [String.data_append, if_pos (isPrefixOf_append_self _ _), List.drop_left]

theorem shRun_inSingle_escape (cs : List Char) :
    shRun .inSingle ((cs.map escapeQuoteChar).flatten ++ [Char.ofNat 39]) = some cs := by
  induction cs with
  | nil => rfl
  | cons c t ih =>
    by_cases hc : c = '\''
    · subst hc
      simp [escapeQuoteChar, shRun, ih]
    · simp [escapeQuoteChar, hc, shRun, ih]

/-- C1: the Output Filter is supposed to retain an unterminated CSI prefix
across `Read` calls so that the concatenated output of two calls equals
the output of filtering the whole stream at once; this theorem evaluates
`TerminalFilter.Read` at the failing input `ESC [ '3'` followed by
`'m' 'A'` — the first call emits nothing, but the carried state is empty
(ssh.go:612 clears the buffer retained at ssh.go:587), so the concatenated
two-call output differs from the single-call output. -/
theorem terminalFilter_split_csi_diverges :
    (tfRead [] [27, 91, 51]).fst = [] ∧
    (tfRead [] [27, 91, 51]).snd = [] ∧
    (tfRead [] [27, 91, 51]).fst ++ (tfRead (tfRead [] [27, 91, 51]).snd [109, 65]).fst ≠
      (tfRead [] [27, 91, 51, 109, 65]).fst := by
  decide

/-- C2 counterexample: `Initialize` called while a store file already
exists does not fail — it succeeds and writes a fresh store over the
existing one (at this concrete input the result is an empty store encrypted
under the new passphrase, not the existing file). -/
theorem storeInit_existing_counterexample :
    (storeInit
        (some (storeSave [⟨"db", "d", "s1"⟩] "oldpass" (some (List.replicate 32 1)) none
          (List.replicate 32 1) 0))
        "newpass" (List.replicate 32 2) 7)
      = ([], storeSave [] "newpass" (some (List.replicate 32 2)) none (List.replicate 32 2) 7) ∧
    storeSave [] "newpass" (some (List.replicate 32 2)) none (List.replicate 32 2) 7 ≠
      storeSave [⟨"db", "d", "s1"⟩] "oldpass" (some (List.replicate 32 1)) none
        (List.replicate 32 1) 0 := by
  decide

/-- C2 (amended): `Initialize` performs no existing-store check; for every
current file state it generates a fresh random salt, resets the entry set
to empty, and persists the empty store encrypted under the passphrase with
that salt — overwriting any existing store file. -/
theorem storeInit_spec (file : Option StoreFile) (pass : String) (freshSalt : List Nat)
    (n0 : Nat) :
    storeInit file pass freshSalt n0 = ([], .store freshSalt ⟨pass, freshSalt⟩ n0 []) := rfl

/-- C4: the command-chain compiler maps the three-step jump-host example to
exactly the documented single SSH command: `-tt` inserted after the first
`ssh `, remote entries joined with `; `, the last remote entry prefixed
with `exec ` because it contains `ssh`, and the whole remote script wrapped
in single quotes. -/
theorem compileCommands_jumphost_example :
    compileCommands ["ssh jumphost@bastion", "sleep 2", "ssh user@internal-server"] =
      .ok "ssh -tt jumphost@bastion 'sleep 2; exec ssh user@internal-server'" := rfl

/-- C5: for every command list of at least two entries in which the first
entry containing `ssh` is the last entry, the compiler returns that SSH
entry alone — none of the earlier entries appears in the compiled
command. -/
theorem compileCommands_ssh_last (cmds : List String) (i : Nat)
    (hlen : 2 ≤ cmds.length)
    (hfind : cmds.findIdx? (fun cmd => goContains cmd "ssh") = some i)
    (hlast : i + 1 = cmds.length) :
    compileCommands cmds = .ok (cmds.getD i "") := by
  have h0 : ¬ cmds.length = 0 := by omega
  have h1 : ¬ cmds.length = 1 := by omega
  have h3 : i = cmds.length - 1 := by omega
  simp [compileCommands, h0, h1, hfind, h3]

theorem compileCommands_ssh_last_witness :
    (["echo pre", "ssh host"] : List String).findIdx? (fun cmd => goContains cmd "ssh") =
      some 1 ∧
    compileCommands ["echo pre", "ssh host"] = .ok "ssh host" :=
  ⟨by decide, compileCommands_ssh_last ["echo pre", "ssh host"] 1 (by decide) (by decide) rfl⟩

/-- C8: quoting round trip — escaping every literal single quote of the
remote script and wrapping the result in single quotes is a left inverse of
POSIX shell quote removal: interpreting the wrapped fragment reproduces the
original script exactly, for every script. -/
theorem singleQuoteWrap_roundtrip (s : String) :
    shellUnquote (singleQuoteWrap s) = some s := by
  have hdata : (singleQuoteWrap s).data =
      '\'' :: ((s.data.map escapeQuoteChar).flatten ++ ['\'']) := by
    unfold singleQuoteWrap escapeSingleQuotes
    rw [String.data_append, String.data_append]
    rfl
  unfold shellUnquote
  rw [hdata]
  have h39 : ('\'' : Char) = Char.ofNat 39 := rfl
  simp [shRun, h39, shRun_inSingle_escape s.data]

/-- C9: the directive parser returns an equally ordered list of the same
length (it is the elementwise map of the single-entry classifier), and the
classifier implements the priority rules — `SEND:`/`SENDPASS:`/`WAIT:`
prefixes are stripped into `send`/`sendPass`/`wait` directives, `INTERACT`
and `INTERACTIVE` give an `interact` directive with empty value, anything
else becomes an `exec` directive carrying the whole string; a `WAIT` value
that does not scan as an integer, or scans negative, yields a zero-second
wait in the automation engine. -/
theorem parseCommands_spec :
    (∀ cmds : List String, (parseCommands cmds).length = cmds.length) ∧
    (∀ cmds : List String, parseCommands cmds = cmds.map parseCommand) ∧
    (∀ v : String, parseCommand ("SEND:" ++ v) = ⟨.send, v⟩) ∧
    (∀ v : String, parseCommand ("SENDPASS:" ++ v) = ⟨.sendPass, v⟩) ∧
    (∀ v : String, parseCommand ("WAIT:" ++ v) = ⟨.wait, v⟩) ∧
    parseCommand "INTERACT" = ⟨.interact, ""⟩ ∧
    parseCommand "INTERACTIVE" = ⟨.interact, ""⟩ ∧
    (∀ s : String, goHasPrefix s "SEND:" = false → goHasPrefix s "SENDPASS:" = false →
      goHasPrefix s "WAIT:" = false → ¬ s = "INTERACT" → ¬ s = "INTERACTIVE" →
      parseCommand s = ⟨.exec, s⟩) ∧
    (∀ v : String, goSscanfInt v = none → effectiveWaitSeconds v = 0) ∧
    (∀ (v : String) (z : Int), goSscanfInt v = some z → z < 0 → effectiveWaitSeconds v = 0) := by
  refine ⟨fun cmds => by simp [parseCommands], fun cmds => rfl, fun v => ?_, fun v => ?_,
    fun v => ?_, by decide, by decide, fun s h1 h2 h3 h4 h5 => ?_,
    fun v h => by simp [effectiveWaitSeconds, h], fun v z h hz => ?_⟩
  · simp [parseCommand, goHasPrefix_append, goTrimPrefix_append]
  · have hne : goHasPrefix ("SENDPASS:" ++ v) "SEND:" = false := rfl
    simp [parseCommand, hne, goHasPrefix_append, goTrimPrefix_append]
  · have hne1 : goHasPrefix ("WAIT:" ++ v) "SEND:" = false := rfl
    have hne2 : goHasPrefix ("WAIT:" ++ v) "SENDPASS:" = false := rfl
    simp [parseCommand, hne1, hne2, goHasPrefix_append, goTrimPrefix_append]
  · simp [parseCommand, h1, h2, h3, h4, h5]
  · simp only [effectiveWaitSeconds, h]
    rw [if_neg (by omega)]

theorem parseCommands_spec_witness :
    parseCommand "ls -la" = ⟨.exec, "ls -la"⟩ ∧
    effectiveWaitSeconds "abc" = 0 ∧ effectiveWaitSeconds "-2" = 0 := by
  obtain ⟨-, -, -, -, -, -, -, h8, h9, h10⟩ := parseCommands_spec
  exact ⟨h8 "ls -la" (by decide) (by decide) (by decide) (by decide) (by decide),
    h9 "abc" (by decide), h10 "-2" (-2) (by decide) (by decide)⟩

/-- C10: for every non-empty command list whose parsed directives contain
no `exec` directive, `ConnectInteractive` returns the error `no executable
command found` (with the password-store block succeeding, when consulted)
and never reaches PTY allocation — the model returns `.ok` exactly when
control reaches `pty.Start`, and no store outcome makes it `.ok`. -/
theorem connectInteractive_no_exec (cmds : List String)
    (hne : ¬ cmds.length = 0)
    (hnoexec : ∀ pc ∈ parseCommands cmds, ¬ pc.type = CommandType.exec) :
    connectInteractivePrePty true cmds = .error "no executable command found" ∧
    ∀ (b : Bool) (s : String), ¬ connectInteractivePrePty b cmds = .ok s := by
  have hplen : ¬ (parseCommands cmds).length = 0 := by
    simpa [parseCommands] using hne
  have hfind : (parseCommands cmds).find? (fun pc => pc.type = CommandType.exec) = none :=
    List.find?_eq_none.mpr (fun pc hmem => by simpa using hnoexec pc hmem)
  constructor
  · simp [connectInteractivePrePty, hne, hplen, hfind]
  · intro b s h
    simp only [connectInteractivePrePty, if_neg hne, if_neg hplen, hfind] at h
    split at h
    · exact Except.noConfusion h
    · simp at h

theorem connectInteractive_no_exec_witness :
    ¬ (["SEND:hi", "WAIT:1", "INTERACT"] : List String).length = 0 ∧
    connectInteractivePrePty true ["SEND:hi", "WAIT:1", "INTERACT"] =
      .error "no executable command found" :=
  ⟨by decide,
   (connectInteractive_no_exec ["SEND:hi", "WAIT:1", "INTERACT"] (by decide) (by decide)).1⟩

/-- C6: case analysis of `Load` — an absent file yields an empty in-memory
store and no error; a file shorter than the 32-byte salt fails with the
format error; and loading any file written by `Save` under one passphrase
with a different passphrase fails with the authentication/decryption error
and leaves the in-memory entries unchanged (no plaintext). -/
theorem storeLoad_cases :
    (∀ (pass : String) (cur : List PasswordEntry), storeLoad none pass cur = ([], none)) ∧
    (∀ (pass : String) (cur : List PasswordEntry) (bs : List Nat), bs.length < 32 →
      storeLoad (some (.raw bs)) pass cur = (cur, some .formatError)) ∧
    (∀ (goodPass badPass : String) (saltArg : Option (List Nat)) (f0 : Option StoreFile)
      (fresh : List Nat) (order cur : List PasswordEntry) (n0 : Nat),
      ¬ badPass = goodPass →
      storeLoad (some (storeSave order goodPass saltArg f0 fresh n0)) badPass cur =
        (cur, some .decryptError)) := by
  refine ⟨fun pass cur => rfl, fun pass cur bs h => by simp [storeLoad, h],
    fun gp bp saltArg f0 fresh order cur n0 hne => ?_⟩
  simp [storeLoad, storeSave, DerivedKey.mk.injEq, hne]

theorem storeLoad_cases_witness :
    storeLoad none "anypass" [] = ([], none) ∧
    storeLoad (some (.raw [1, 2, 3])) "anypass" [] = ([], some .formatError) ∧
    storeLoad
        (some (storeSave [⟨"db", "d", "s1"⟩] "rightpass" (some (List.replicate 32 5)) none
          (List.replicate 32 5) 0)) "wrongpass" [] = ([], some .decryptError) := by
  obtain ⟨h1, h2, h3⟩ := storeLoad_cases
  exact ⟨h1 "anypass" [], h2 "anypass" [] [1, 2, 3] (by decide),
    h3 "rightpass" "wrongpass" (some (List.replicate 32 5)) none (List.replicate 32 5)
      [⟨"db", "d", "s1"⟩] [] 0 (by decide)⟩

/-- C3: credential-store round trip — after initializing a fresh store
under `P`, adding one entry, and saving under `P` (with the entries map
serialized in any iteration order), a fresh instance that loads with `P`
succeeds and `Get` returns exactly the original secret. -/
theorem store_roundtrip (P id desc secret : String) (salt fresh2 : List Nat)
    (n0 n1 : Nat) (order cur : List PasswordEntry)
    (horder : order.Perm [⟨id, desc, secret⟩]) :
    storeAdd (storeInit none P salt n0).fst id desc secret = .ok [⟨id, desc, secret⟩] ∧
    (storeLoad (some (storeSave order P none (some (storeInit none P salt n0).snd) fresh2 n1))
        P cur).snd = none ∧
    storeGet
      (storeLoad (some (storeSave order P none (some (storeInit none P salt n0).snd) fresh2 n1))
        P cur).fst id = .ok secret := by
  have horder2 : order = [⟨id, desc, secret⟩] := List.perm_singleton.mp horder
  subst horder2
  refine ⟨rfl, ?_, ?_⟩ <;>
    simp [storeInit, storeSave, storeLoad, storeGet, reusedSalt, encryptEntries,
      decryptEntries, entriesInsert]

theorem store_roundtrip_witness :
    ([(⟨"db", "desc", "secret1"⟩ : PasswordEntry)] : List PasswordEntry).Perm
      [⟨"db", "desc", "secret1"⟩] ∧
    storeGet
      (storeLoad
        (some (storeSave [⟨"db", "desc", "secret1"⟩] "master12" none
          (some (storeInit none "master12" (List.replicate 32 6) 0).snd)
          (List.replicate 32 7) 3)) "master12" []).fst "db" = .ok "secret1" := by
  have h := store_roundtrip "master12" "db" "desc" "secret1" (List.replicate 32 6)
    (List.replicate 32 7) 0 3 [⟨"db", "desc", "secret1"⟩] [] (by decide)
  exact ⟨by decide, h.2.2⟩

theorem decryptEntries_encryptEntries (key : DerivedKey) (l : List PasswordEntry)
    (n0 : Nat) (acc : List PasswordEntry) :
    decryptEntries key (encryptEntries key n0 l) acc = (l.foldl entriesInsert acc, true) := by
  induction l generalizing n0 acc with
  | nil => rfl
  | cons e t ih => simp [encryptEntries, decryptEntries, ih]

theorem ids_entriesInsert (es : List PasswordEntry) (e : PasswordEntry) :
    (entriesInsert es e).map (fun x => x.id) =
      if es.any (fun x => x.id = e.id) then es.map (fun x => x.id)
      else es.map (fun x => x.id) ++ [e.id] := by
  by_cases h : es.any (fun x => x.id = e.id)
  · simp only [entriesInsert, h, if_true, List.map_map]
    apply List.map_congr_left
    intro x hx
    by_cases hxe : x.id = e.id
    · simp [Function.comp, hxe]
    · simp [Function.comp, hxe]
  · simp [entriesInsert, h]

theorem ids_foldl_nodup (l : List PasswordEntry) : ∀ acc : List PasswordEntry,
    (acc.map (fun x => x.id)).Nodup →
    ((l.foldl entriesInsert acc).map (fun x => x.id)).Nodup := by
  induction l with
  | nil => intro acc h; simpa using h
  | cons e t ih =>
    intro acc h
    rw [List.foldl_cons]
    apply ih
    rw [ids_entriesInsert]
    cases hC : acc.any (fun x => x.id = e.id) with
    | true => simpa [hC] using h
    | false =>
      simp only [Bool.false_eq_true, if_false]
      rw [List.nodup_append]
      refine ⟨h, List.nodup_singleton _, ?_⟩
      intro a ha hb
      simp only [List.mem_singleton] at hb
      subst hb
      simp only [List.mem_map] at ha
      obtain ⟨x, hx, hxid⟩ := ha
      rw [List.any_eq_false] at hC
      have := hC x hx
      simp at this
      exact this hxid

theorem foldl_entriesInsert_eq_append (l : List PasswordEntry) : ∀ acc : List PasswordEntry,
    ((acc ++ l).map (fun x => x.id)).Nodup →
    l.foldl entriesInsert acc = acc ++ l := by
  induction l with
  | nil => intro acc h; simp
  | cons e t ih =>
    intro acc h
    have hnotin : acc.any (fun x => x.id = e.id) = false := by
      rw [List.map_append, List.nodup_append] at h
      obtain ⟨-, -, hdisj⟩ := h
      rw [List.any_eq_false]
      intro x hx
      have hmem := hdisj (List.mem_map_of_mem (fun y => y.id) hx)
      simp at hmem
      simpa using hmem.1
    have hins : entriesInsert acc e = acc ++ [e] := by simp [entriesInsert, hnotin]
    rw [List.foldl_cons, hins]
    have hza : ((acc ++ [e]) ++ t) = acc ++ e :: t := by simp
    rw [ih (acc ++ [e]) (by rw [hza]; exact h), hza]

theorem find?_congr_perm {l m : List PasswordEntry} (h : l.Perm m)
    (hm : (m.map (fun x => x.id)).Nodup) (i : String) :
    l.find? (fun x => x.id = i) = m.find? (fun x => x.id = i) := by
  cases hm2 : m.find? (fun x => x.id = i) with
  | none =>
    have hall := List.find?_eq_none.mp hm2
    exact List.find?_eq_none.mpr (fun x hx => hall x (h.mem_iff.mp hx))
  | some e =>
    have hpe : e.id = i := by simpa using List.find?_some hm2
    have hem : e ∈ m := List.mem_of_find?_eq_some hm2
    have hel : e ∈ l := h.mem_iff.mpr hem
    have hsome : (l.find? (fun x => x.id = i)).isSome :=
      List.find?_isSome.mpr ⟨e, hel, by simpa using hpe⟩
    obtain ⟨x, hx⟩ := Option.isSome_iff_exists.mp hsome
    have hxl : x ∈ l := List.mem_of_find?_eq_some hx
    have hxm : x ∈ m := h.mem_iff.mp hxl
    have hxi : x.id = i := by simpa using List.find?_some hx
    rw [hx, List.inj_on_of_nodup_map hm hxm hem (by rw [hxi, hpe])]

/-- C7: after a successful master-passphrase change from `old` to `new` on
a store saved under `old`, the result re-encrypts the full store under
`new` with a brand-new salt: the persisted file is exactly a fresh `Save`
under `new`; its salt is the new salt (hence differs from the previous
one); loading it with `old` fails with the authentication error; loading it
with `new` succeeds with lookup-identical entry contents to before the
change; and a change attempted with an incorrect old passphrase fails with
the distinct `incorrect old password` error, writing nothing. -/
theorem changeMasterPassword_correct
    (oldP newP : String) (salt newSalt : List Nat)
    (order saveOrder cur : List PasswordEntry) (n0 n1 : Nat)
    (f : StoreFile) (loaded : List PasswordEntry) (nf : StoreFile)
    (hf : f = storeSave order oldP (some salt) none salt n0)
    (hloaded : loaded = (storeLoad (some f) oldP []).fst)
    (hnf : nf = storeSave saveOrder newP (some newSalt) (some f) newSalt n1)
    (hpass : ¬ newP = oldP)
    (hsalt : ¬ newSalt = salt)
    (hperm : saveOrder.Perm loaded) :
    changeMasterPassword (some f) oldP newP cur saveOrder newSalt n1 = (loaded, some nf, none) ∧
    fileSaltOf nf = newSalt ∧
    ¬ fileSaltOf nf = fileSaltOf f ∧
    (∀ cur2 : List PasswordEntry, storeLoad (some nf) oldP cur2 = (cur2, some .decryptError)) ∧
    (∀ cur2 : List PasswordEntry, (storeLoad (some nf) newP cur2).snd = none) ∧
    (∀ (cur2 : List PasswordEntry) (i : String),
      (storeLoad (some nf) newP cur2).fst.find? (fun x => x.id = i) =
        loaded.find? (fun x => x.id = i)) ∧
    (∀ (wrongP : String) (cur3 : List PasswordEntry), ¬ wrongP = oldP →
      changeMasterPassword (some f) wrongP newP cur3 saveOrder newSalt n1 =
        (cur3, none, some .incorrectOldPassword)) := by
  subst hf
  subst hnf
  have hpass2 : ¬ oldP = newP := fun hh => hpass hh.symm
  have hloaded2 : loaded = order.foldl entriesInsert [] := by
    rw [hloaded]
    simp [storeLoad, storeSave, decryptEntries_encryptEntries]
  have hnodupLoaded : (loaded.map (fun x => x.id)).Nodup := by
    rw [hloaded2]
    exact ids_foldl_nodup order [] (by simp)
  have hnodupSave : (saveOrder.map (fun x => x.id)).Nodup :=
    (hperm.map (fun x => x.id)).nodup_iff.mpr hnodupLoaded
  refine ⟨?_, ?_, ?_, ?_, ?_, ?_, ?_⟩
  · simp [changeMasterPassword, storeSave, decryptEntries_encryptEntries, hloaded2]
  · simp [storeSave, fileSaltOf]
  · simp [storeSave, fileSaltOf, hsalt]
  · intro cur2
    simp [storeLoad, storeSave, DerivedKey.mk.injEq, hpass2]
  · intro cur2
    simp [storeLoad, storeSave, decryptEntries_encryptEntries]
  · intro cur2 i
    have hfst : (storeLoad
        (some (storeSave saveOrder newP (some newSalt)
          (some (storeSave order oldP (some salt) none salt n0)) newSalt n1)) newP cur2).fst =
        saveOrder.foldl entriesInsert [] := by
      simp [storeLoad, storeSave, decryptEntries_encryptEntries]
    rw [hfst, foldl_entriesInsert_eq_append saveOrder [] (by simpa using hnodupSave)]
    simpa using find?_congr_perm hperm hnodupLoaded i
  · intro wrongP cur3 hw
    simp [changeMasterPassword, storeSave, DerivedKey.mk.injEq, hw]

theorem changeMasterPassword_correct_witness :
    (changeMasterPassword
        (some (storeSave [⟨"db", "d", "s1"⟩] "oldmaster" (some (List.replicate 32 8)) none
          (List.replicate 32 8) 0))
        "oldmaster" "newmaster" [] [⟨"db", "d", "s1"⟩] (List.replicate 32 9) 4).2.2 = none ∧
    (storeLoad
        (some (storeSave [⟨"db", "d", "s1"⟩] "newmaster" (some (List.replicate 32 9))
          (some (storeSave [⟨"db", "d", "s1"⟩] "oldmaster" (some (List.replicate 32 8)) none
            (List.replicate 32 8) 0))
          (List.replicate 32 9) 4)) "oldmaster" []).snd = some .decryptError := by
  have h := changeMasterPassword_correct "oldmaster" "newmaster" (List.replicate 32 8)
    (List.replicate 32 9) [⟨"db", "d", "s1"⟩] [⟨"db", "d", "s1"⟩] [] 0 4
    (storeSave [⟨"db", "d", "s1"⟩] "oldmaster" (some (List.replicate 32 8)) none
      (List.replicate 32 8) 0)
    ((storeLoad
      (some (storeSave [⟨"db", "d", "s1"⟩] "oldmaster" (some (List.replicate 32 8)) none
        (List.replicate 32 8) 0)) "oldmaster" []).fst)
    (storeSave [⟨"db", "d", "s1"⟩] "newmaster" (some (List.replicate 32 9))
      (some (storeSave [⟨"db", "d", "s1"⟩] "oldmaster" (some (List.replicate 32 8)) none
        (List.replicate 32 8) 0))
      (List.replicate 32 9) 4)
    rfl rfl rfl (by decide) (by decide) (by decide)
  refine ⟨?_, ?_⟩
  · rw [h.1]
  · rw [h.2.2.2.1 []]

/-- C7 boundary counterexample: with `old = new` (`"samepass0"`), the
master-passphrase change succeeds, yet loading the persisted file with the
old passphrase does not fail — it succeeds with no error — so the claim as
stated over every pair of passphrases is false; it holds for distinct
passphrases (see `changeMasterPassword_correct`). -/
theorem changeMasterPassword_same_pass_counterexample :
    (changeMasterPassword
        (some (storeSave [⟨"db", "d", "s1"⟩] "samepass0" (some (List.replicate 32 8)) none
          (List.replicate 32 8) 0))
        "samepass0" "samepass0" [] [⟨"db", "d", "s1"⟩] (List.replicate 32 9) 4).2.2 = none ∧
    (changeMasterPassword
        (some (storeSave [⟨"db", "d", "s1"⟩] "samepass0" (some (List.replicate 32 8)) none
          (List.replicate 32 8) 0))
        "samepass0" "samepass0" [] [⟨"db", "d", "s1"⟩] (List.replicate 32 9) 4).2.1 =
      some (storeSave [⟨"db", "d", "s1"⟩] "samepass0" (some (List.replicate 32 9))
        (some (storeSave [⟨"db", "d", "s1"⟩] "samepass0" (some (List.replicate 32 8)) none
          (List.replicate 32 8) 0))
        (List.replicate 32 9) 4) ∧
    (storeLoad
        (some (storeSave [⟨"db", "d", "s1"⟩] "samepass0" (some (List.replicate 32 9))
          (some (storeSave [⟨"db", "d", "s1"⟩] "samepass0" (some (List.replicate 32 8)) none
            (List.replicate 32 8) 0))
          (List.replicate 32 9) 4)) "samepass0" []).snd = none := by
  decide

end GoSsh
